import Mathlib

/-!
Verification of the `marc` static-site generator (marc.go).

Go byte slices and strings are modelled as `List Char`; every delimiter the
program searches for is ASCII, so character-level search and comparison agree
with Go's byte-level operations (UTF-8 byte order coincides with code-point
order). Machine-independent helpers (`bytes.Index`, `strings.TrimSpace`,
`strings.SplitN`, map assignment/lookup) are embedded directly from their
documented, deterministic behaviour; the functions of marc.go itself
(`readMeta`, `sortKey`, `Pages.Less`, the URL and output-path derivations,
`dateformat`, `readTmpl`, and the discovery and render loops of `main`) are
translated clause by clause from the source.
-/

namespace Marc

/-- Go strings and byte slices, modelled as lists of characters. -/
abbrev Str := List Char

/-- The preamble delimiter `---` (marc.go line 57). -/
def delim : Str := ['-', '-', '-']

/-- Go `bytes.Index`: index of the first occurrence of `sep` in `s`,
`none` when absent (Go returns -1). -/
def indexOf? : Str → Str → Option Nat
  | [], sep => if sep.isPrefixOf [] then some 0 else none
  | c :: t, sep =>
    if sep.isPrefixOf (c :: t) then some 0 else (indexOf? t sep).map (· + 1)

/-- Go `unicode.IsSpace`: the Unicode White_Space property. -/
def isSpace (c : Char) : Bool :=
  c = ' ' || c = '\t' || c = '\n' || c.val = 11 || c.val = 12 || c = '\r' ||
  c.val = 0x85 || c.val = 0xA0 || c.val = 0x1680 ||
  (0x2000 ≤ c.val && c.val ≤ 0x200A) || c.val = 0x2028 || c.val = 0x2029 ||
  c.val = 0x202F || c.val = 0x205F || c.val = 0x3000

/-- Go `strings.TrimSpace`: drop whitespace from both ends. -/
def trimSpace (s : Str) : Str :=
  ((s.dropWhile isSpace).reverse.dropWhile isSpace).reverse

/-- Go `strings.SplitN(line, ":", 2)`: split at the first colon;
`none` when the line has no colon (Go then returns a 1-element slice,
which readMeta ignores). -/
def splitColon : Str → Option (Str × Str)
  | [] => none
  | c :: t =>
    if c = ':' then some ([], t)
    else (splitColon t).map (fun p => (c :: p.1, p.2))

/-- Go map assignment `m[k] = v`, on an association list: replace the
binding if the key is present, append it otherwise. -/
def mapSet : List (Str × Str) → Str → Str → List (Str × Str)
  | [], k, v => [(k, v)]
  | (k', v') :: rest, k, v =>
    if k' = k then (k, v) :: rest else (k', v') :: mapSet rest k v

/-- Go map lookup `m[k]` (as an option; a missing key reads as `""`). -/
def mapGet (m : List (Str × Str)) (k : Str) : Option Str :=
  (m.find? (fun kv => kv.1 == k)).map (fun kv => kv.2)

/-- One iteration of readMeta's line loop (marc.go lines 67-73):
split the line at its first colon, trim both sides, assign; a line
without a colon is ignored. -/
def insLine (m : List (Str × Str)) (line : Str) : List (Str × Str) :=
  match splitColon line with
  | some (k, v) => mapSet m (trimSpace k) (trimSpace v)
  | none => m

/-- The metadata built from the text between the delimiters:
split into lines on newline, fold the line loop (marc.go lines 66-73). -/
def parseMetaLines (text : Str) : List (Str × Str) :=
  (text.splitOn '\n').foldl insLine []

/-- Function `readMeta` (marc.go lines 56-75). The Go guard
`len(b) < 3 || !bytes.Equal(b[:3], delim)` is exactly "delim is not a
prefix of b". On the preamble path, `i` is the index of the second
delimiter within `b[3:]`, the metadata text is `b[3:i+3]`, and the body
is `b[i+6:]`. A Go nil map is the empty association list. -/
def readMeta (b : Str) : List (Str × Str) × Str :=
  if delim.isPrefixOf b then
    match indexOf? (b.drop 3) delim with
    | none => ([], b)
    | some i => (parseMetaLines ((b.drop 3).take i), b.drop (i + 6))
  else ([], b)

/-- Claim C1: for every input that does not begin with `---`, and for
every input that begins with `---` but whose remainder `b[3:]` contains
no further occurrence of `---`, readMeta returns an empty metadata map
and the input unchanged as the body. -/
theorem readMeta_no_preamble (b : Str)
    (h : delim.isPrefixOf b = false ∨ indexOf? (b.drop 3) delim = none) :
    readMeta b = ([], b) := by
  unfold readMeta
  rcases h with h | h
  · simp [h]
  · cases hp : delim.isPrefixOf b
    · simp
    · simp [h]

/-- Witness for C1: a document with no leading delimiter, and one whose
preamble is unterminated, both pass through unchanged. -/
theorem readMeta_no_preamble_witness :
    readMeta "hello".toList = ([], "hello".toList) ∧
    readMeta "---abc".toList = ([], "---abc".toList) :=
  ⟨readMeta_no_preamble _ (Or.inl (by decide)),
   readMeta_no_preamble _ (Or.inr (by decide))⟩

theorem splitColon_of_mem_free (a rest : Str) (h : ':' ∉ a) :
    splitColon (a ++ ':' :: rest) = some (a, rest) := by
  induction a with
  | nil => simp [splitColon]
  | cons c t ih =>
    have hc : c ≠ ':' := fun hc => h (hc ▸ List.mem_cons_self c t)
    have ht : ':' ∉ t := fun hm => h (List.mem_cons_of_mem c hm)
    simp [splitColon, hc, ih ht]

theorem splitColon_of_no_colon (line : Str) (h : ':' ∉ line) :
    splitColon line = none := by
  induction line with
  | nil => rfl
  | cons c t ih =>
    have hc : c ≠ ':' := fun hc => h (hc ▸ List.mem_cons_self c t)
    have ht : ':' ∉ t := fun hm => h (List.mem_cons_of_mem c hm)
    simp [splitColon, hc, ih ht]

theorem mapGet_mapSet_self (m : List (Str × Str)) (k v : Str) :
    mapGet (mapSet m k v) k = some v := by
  induction m with
  | nil => simp [mapSet, mapGet, List.find?]
  | cons kv rest ih =>
    obtain ⟨k', v'⟩ := kv
    by_cases hk : k' = k
    · simp [mapSet, hk, mapGet, List.find?]
    · simpa [mapSet, hk, mapGet, List.find?, beq_eq_false_iff_ne, hk] using ih

theorem mapGet_mapSet_ne (m : List (Str × Str)) (k v k' : Str) (h : k' ≠ k) :
    mapGet (mapSet m k v) k' = mapGet m k' := by
  have hkk : (k == k') = false := beq_eq_false_iff_ne.mpr (Ne.symm h)
  induction m with
  | nil => simp [mapSet, mapGet, List.find?, hkk]
  | cons kv rest ih =>
    obtain ⟨k₀, v₀⟩ := kv
    by_cases hk : k₀ = k
    · subst hk
      simp [mapSet, mapGet, List.find?, hkk]
    · by_cases hk' : k₀ = k'
      · subst hk'
        simp [mapSet, hk, mapGet, List.find?]
      · have h0 : (k₀ == k') = false := beq_eq_false_iff_ne.mpr hk'
        simpa [mapSet, hk, mapGet, List.find?, h0] using ih

/-- Claim C2: on an input that begins with `---` and whose remainder
holds a second `---` at index `i`, readMeta builds the metadata from
the text `b[3:i+3]` between the delimiters — splitting it into lines,
splitting each line at its first colon, trimming both sides, ignoring
lines without a colon, a later duplicate key overwriting an earlier
one — and returns as body everything from the fixed offset `i+6`,
3 bytes past the second delimiter match. -/
theorem readMeta_preamble (b : Str) (i : Nat) (m : List (Str × Str))
    (line a rest k v k' : Str)
    (h1 : delim.isPrefixOf b = true) (h2 : indexOf? (b.drop 3) delim = some i) :
    (readMeta b).2 = b.drop (i + 6) ∧
    (readMeta b).1 = (((b.drop 3).take i).splitOn '\n').foldl insLine [] ∧
    (splitColon line = none → insLine m line = m) ∧
    (splitColon line = some (k, v) →
      insLine m line = mapSet m (trimSpace k) (trimSpace v)) ∧
    (':' ∉ a → splitColon (a ++ ':' :: rest) = some (a, rest)) ∧
    (':' ∉ line → splitColon line = none) ∧
    mapGet (mapSet m k v) k = some v ∧
    (k' ≠ k → mapGet (mapSet m k v) k' = mapGet m k') := by
  refine ⟨?_, ?_, ?_, ?_, ?_, ?_, ?_, ?_⟩
  · simp [readMeta, h1, h2]
  · simp [readMeta, h1, h2, parseMetaLines]
  · intro h; simp [insLine, h]
  · intro h; simp [insLine, h]
  · exact splitColon_of_mem_free a rest
  · exact splitColon_of_no_colon line
  · exact mapGet_mapSet_self m k v
  · exact mapGet_mapSet_ne m k v k'

/-- Witness for C2: a concrete preamble with a trimmed pair, an ignored
colon-free line, and a duplicate key whose later value wins. -/
theorem readMeta_preamble_witness :
    (readMeta "---\ntitle : Hi \nnote\ntitle:Bye\n---\nbody".toList).2 =
      "\nbody".toList ∧
    mapGet (readMeta "---\ntitle : Hi \nnote\ntitle:Bye\n---\nbody".toList).1
      "title".toList = some "Bye".toList := by
  have h := readMeta_preamble "---\ntitle : Hi \nnote\ntitle:Bye\n---\nbody".toList
    28 [] [] [] [] [] [] [] (by decide) (by decide)
  refine ⟨?_, ?_⟩
  · exact h.1.trans (by decide)
  · rw [h.2.1]; decide

/-- The `Page` struct (marc.go lines 21-28). `HTML` is the rendered
fragment filled in during the render pass. -/
structure Page where
  Meta : List (Str × Str)
  Text : Str
  Url : Str
  HTML : Str
  AbsPath : Str
  RelPath : Str
deriving DecidableEq

/-- Method `Page.sortKey` (marc.go lines 30-32): the metadata "date" value;
a missing key — or a nil map — reads as the empty string in Go. -/
def sortKey (p : Page) : Str := (mapGet p.Meta "date".toList).getD []

/-- Go `strings.Compare(s, t) < 0`: lexicographic comparison. Go compares
UTF-8 bytes; byte order and code-point order coincide, so comparing
`Char.toNat` code points is the same relation. -/
def strLt : Str → Str → Bool
  | [], [] => false
  | [], _ :: _ => true
  | _ :: _, [] => false
  | a :: as, b :: bs =>
    if a.toNat < b.toNat then true
    else if b.toNat < a.toNat then false
    else strLt as bs

/-- Method `Pages.Less` (marc.go lines 80-82): page `x` sorts before page `y`
when `strings.Compare(x.sortKey(), y.sortKey()) > 0`, i.e. its date
string is strictly greater — descending order. -/
def pageLess (x y : Page) : Bool := strLt (sortKey y) (sortKey x)

/-- One insertion step of a stable sort by `pageLess`: the element
being inserted came later in discovery order, so it passes every
element it is not strictly less-than (ties included) and stops before
the first element it beats. -/
def insertPage (x : Page) : List Page → List Page
  | [] => [x]
  | y :: ys => if pageLess x y then x :: y :: ys else y :: insertPage x ys

/-- Go `sort.Stable(pages)` (marc.go line 148), modelled by its contract:
the stable sort of the discovery sequence under `Pages.Less`, realised
as left-to-right stable insertion. -/
def sortPages (l : List Page) : List Page :=
  l.foldl (fun acc x => insertPage x acc) []

theorem strLt_irrefl (s : Str) : strLt s s = false := by
  induction s with
  | nil => rfl
  | cons c t ih => simp [strLt, ih]

theorem strLt_asymm {s t : Str} (h : strLt s t = true) : strLt t s = false := by
  induction s generalizing t with
  | nil =>
    cases t with
    | nil => simp [strLt] at h
    | cons b bs => simp [strLt]
  | cons a as ih =>
    cases t with
    | nil => simp [strLt] at h
    | cons b bs =>
      by_cases h1 : a.toNat < b.toNat
      · have h2 : ¬ b.toNat < a.toNat := by omega
        simp [strLt, h1, h2]
      · by_cases h2 : b.toNat < a.toNat
        · simp [strLt, h1, h2] at h
        · simp [strLt, h1, h2] at h ⊢
          exact ih h

theorem strLt_trans {s t u : Str} (h1 : strLt s t = true)
    (h2 : strLt t u = true) : strLt s u = true := by
  induction s generalizing t u with
  | nil =>
    cases t with
    | nil => simp [strLt] at h1
    | cons b bs =>
      cases u with
      | nil => simp [strLt] at h2
      | cons c cs => simp [strLt]
  | cons a as ih =>
    cases t with
    | nil => simp [strLt] at h1
    | cons b bs =>
      cases u with
      | nil => simp [strLt] at h2
      | cons c cs =>
        by_cases hab : a.toNat < b.toNat
        · by_cases hbc : b.toNat < c.toNat
          · have : a.toNat < c.toNat := by omega
            simp [strLt, this]
          · by_cases hcb : c.toNat < b.toNat
            · simp [strLt, hcb, Nat.lt_asymm hcb] at h2
            · have hb : b.toNat = c.toNat := by omega
              have : a.toNat < c.toNat := by omega
              simp [strLt, this]
        · by_cases hba : b.toNat < a.toNat
          · simp [strLt, hab, hba] at h1
          · have hab' : a.toNat = b.toNat := by omega
            by_cases hbc : b.toNat < c.toNat
            · have : a.toNat < c.toNat := by omega
              simp [strLt, this]
            · by_cases hcb : c.toNat < b.toNat
              · simp [strLt, hcb, Nat.lt_asymm hcb] at h2
              · have hac : ¬ a.toNat < c.toNat := by omega
                have hca : ¬ c.toNat < a.toNat := by omega
                simp [strLt, hab, hba] at h1
                simp [strLt, hbc, hcb] at h2
                simp [strLt, hac, hca]
                exact ih h1 h2

theorem strLt_le_trans {s t u : Str} (h1 : strLt t s = true)
    (h2 : strLt t u = false) : strLt s u = false := by
  cases hsu : strLt s u with
  | false => rfl
  | true => rw [strLt_trans h1 hsu] at h2; simp at h2

theorem strLt_nil_left {t : Str} (h : t ≠ []) : strLt [] t = true := by
  cases t with
  | nil => exact (h rfl).elim
  | cons c cs => simp [strLt]

/-- Page `a` may stand before `b` in the sorted registry: `a`'s date string
is not strictly smaller, i.e. `¬ Less b a`. -/
def pageGe (a b : Page) : Prop := strLt (sortKey a) (sortKey b) = false

theorem insertPage_perm (x : Page) (l : List Page) :
    (insertPage x l).Perm (x :: l) := by
  induction l with
  | nil => exact List.Perm.refl _
  | cons y ys ih =>
    cases h : pageLess x y with
    | true => simp [insertPage, h]
    | false =>
      simp only [insertPage, h, Bool.false_eq_true, if_false]
      exact (ih.cons y).trans (List.Perm.swap x y ys)

theorem insertPage_pairwise {x : Page} {l : List Page}
    (h : l.Pairwise pageGe) : (insertPage x l).Pairwise pageGe := by
  induction l with
  | nil => simp [insertPage, pageGe]
  | cons y ys ih =>
    obtain ⟨hy, hys⟩ := List.pairwise_cons.mp h
    cases hxy : pageLess x y with
    | true =>
      simp only [insertPage, hxy, if_true]
      refine List.pairwise_cons.mpr ⟨?_, h⟩
      intro z hz
      rcases List.mem_cons.mp hz with rfl | hz
      · exact strLt_asymm hxy
      · exact strLt_le_trans hxy (hy z hz)
    | false =>
      simp only [insertPage, hxy, Bool.false_eq_true, if_false]
      refine List.pairwise_cons.mpr ⟨?_, ih hys⟩
      intro z hz
      rcases List.mem_cons.mp ((insertPage_perm x ys).mem_iff.mp hz) with rfl | hz
      · exact hxy
      · exact hy z hz

theorem filter_insertPage (x : Page) (k : Str) {l : List Page}
    (hl : l.Pairwise pageGe) :
    (insertPage x l).filter (fun p => sortKey p == k) =
      l.filter (fun p => sortKey p == k) ++
        (if sortKey x == k then [x] else []) := by
  induction l with
  | nil => cases hk : (sortKey x == k) <;> simp [insertPage, hk]
  | cons y ys ih =>
    obtain ⟨hy, hys⟩ := List.pairwise_cons.mp hl
    cases hxy : pageLess x y with
    | false =>
      simp only [insertPage, hxy, Bool.false_eq_true, if_false]
      cases hyk : (sortKey y == k) <;>
        simp [List.filter_cons, hyk, ih hys]
    | true =>
      simp only [insertPage, hxy, if_true]
      cases hxk : (sortKey x == k) with
      | false => simp [List.filter_cons, hxk]
      | true =>
        have hxkk : sortKey x = k := eq_of_beq hxk
        have hnil : (y :: ys).filter (fun p => sortKey p == k) = [] := by
          rw [List.filter_eq_nil_iff]
          intro z hz
          rcases List.mem_cons.mp hz with rfl | hz
          · intro hzk
            have hzz : sortKey z = sortKey x := (eq_of_beq hzk).trans hxkk.symm
            simp [pageLess, hzz, strLt_irrefl] at hxy
          · intro hzk
            have hzx : sortKey z = sortKey x := (eq_of_beq hzk).trans hxkk.symm
            have hyz := hy z hz
            simp only [pageGe, hzx] at hyz
            simp only [pageLess] at hxy
            rw [hxy] at hyz
            simp at hyz
        rw [List.filter_cons_of_pos (by simpa using hxk), hnil]
        simp [hnil]

theorem sortPages_go_pairwise (l : List Page) (acc : List Page)
    (h : acc.Pairwise pageGe) :
    (l.foldl (fun acc x => insertPage x acc) acc).Pairwise pageGe := by
  induction l generalizing acc with
  | nil => exact h
  | cons x t ih => exact ih _ (insertPage_pairwise h)

theorem sortPages_pairwise (l : List Page) :
    (sortPages l).Pairwise pageGe :=
  sortPages_go_pairwise l [] List.Pairwise.nil

theorem sortPages_go_perm (l acc : List Page) :
    (l.foldl (fun acc x => insertPage x acc) acc).Perm (l ++ acc) := by
  induction l generalizing acc with
  | nil => simp
  | cons x t ih =>
    refine ((ih (insertPage x acc)).trans ?_)
    refine (List.Perm.append_left t (insertPage_perm x acc)).trans ?_
    exact List.perm_middle

theorem sortPages_perm (l : List Page) : (sortPages l).Perm l := by
  simpa using sortPages_go_perm l []

theorem sortPages_go_filter (l : List Page) (acc : List Page) (k : Str)
    (h : acc.Pairwise pageGe) :
    (l.foldl (fun acc x => insertPage x acc) acc).filter
        (fun p => sortKey p == k) =
      acc.filter (fun p => sortKey p == k) ++
        l.filter (fun p => sortKey p == k) := by
  induction l generalizing acc with
  | nil => simp
  | cons x t ih =>
    rw [List.foldl_cons, ih _ (insertPage_pairwise h), filter_insertPage x k h]
    cases hxk : (sortKey x == k) <;> simp [List.filter_cons, hxk]

/-- Claim C3: the registry order is the stable sort of discovery order
by descending string-lexicographic "date": the sorted registry is a
permutation of the input, consecutive pages never have a strictly
increasing date string, documents sharing any date value keep their
discovery order (the filtered subsequence at each key is unchanged),
a page without a "date" key has the empty string as sort key, and an
empty-key page is never followed by a page with a non-empty key. -/
theorem registry_sort_spec (l : List Page) (k : Str) (p : Page) :
    (sortPages l).Perm l ∧
    (sortPages l).Pairwise
      (fun a b => strLt (sortKey a) (sortKey b) = false) ∧
    (sortPages l).filter (fun q => sortKey q == k) =
      l.filter (fun q => sortKey q == k) ∧
    (mapGet p.Meta "date".toList = none → sortKey p = []) ∧
    (sortPages l).Pairwise (fun a b => sortKey a = [] → sortKey b = []) := by
  refine ⟨sortPages_perm l, sortPages_pairwise l, ?_, ?_, ?_⟩
  · simpa using sortPages_go_filter l [] k List.Pairwise.nil
  · intro h
    simp only [sortKey]
    rw [h]
    rfl
  · refine (sortPages_pairwise l).imp ?_
    intro a b hab ha
    by_cases hb : sortKey b = []
    · exact hb
    · simp only [pageGe] at hab
      rw [ha, strLt_nil_left hb] at hab
      simp at hab

def pageA : Page :=
  { Meta := [("date".toList, "2023-01-02".toList)], Text := "A".toList,
    Url := [], HTML := [], AbsPath := [], RelPath := [] }

def pageB : Page :=
  { Meta := [("date".toList, "2024-05-01".toList)], Text := "B".toList,
    Url := [], HTML := [], AbsPath := [], RelPath := [] }

def pageC : Page :=
  { Meta := [("title".toList, "no date".toList)], Text := "C".toList,
    Url := [], HTML := [], AbsPath := [], RelPath := [] }

def pageD : Page :=
  { Meta := [("date".toList, "2024-05-01".toList)], Text := "D".toList,
    Url := [], HTML := [], AbsPath := [], RelPath := [] }

/-- Witness for C3, on four concrete pages: two tied dates, one older
date, one missing date. -/
theorem registry_sort_spec_witness :
    (sortPages [pageA, pageB, pageC, pageD]).Perm
      [pageA, pageB, pageC, pageD] ∧
    (sortPages [pageA, pageB, pageC, pageD]).Pairwise
      (fun a b => strLt (sortKey a) (sortKey b) = false) ∧
    (sortPages [pageA, pageB, pageC, pageD]).filter
        (fun q => sortKey q == "2024-05-01".toList) =
      [pageA, pageB, pageC, pageD].filter
        (fun q => sortKey q == "2024-05-01".toList) ∧
    sortKey pageC = [] ∧
    (sortPages [pageA, pageB, pageC, pageD]).Pairwise
      (fun a b => sortKey a = [] → sortKey b = []) := by
  have h := registry_sort_spec [pageA, pageB, pageC, pageD]
    "2024-05-01".toList pageC
  exact ⟨h.1, h.2.1, h.2.2.1, h.2.2.2.1 (by decide), h.2.2.2.2⟩

/-- Helper for `extOf`: scan the reversed path; a path separator ends
the final element without a dot, a dot yields the extension. -/
def extOfAux : Str → Str → Str
  | [], _ => []
  | c :: t, acc =>
    if c = '/' then [] else if c = '.' then '.' :: acc else extOfAux t (c :: acc)

/-- Go `filepath.Ext`: the suffix of the final path element starting at
its last dot, empty when the final element has no dot. -/
def extOf (p : Str) : Str := extOfAux p.reverse []

/-- Go `strings.TrimSuffix`: drop the suffix when present, once. -/
def trimSuffix (s suffix : Str) : Str :=
  if suffix.isSuffixOf s then s.take (s.length - suffix.length) else s

/-- The first URL line of `readPage` (marc.go line 98): the relative
path with its extension replaced by `.html`. -/
def pageUrlBase (relpath : Str) : Str :=
  trimSuffix relpath (extOf relpath) ++ ".html".toList

/-- The derived URL (marc.go lines 98-99): the `.html`-form relative
path with a trailing literal `index.html` stripped. -/
def mapUrl (relpath : Str) : Str :=
  trimSuffix (pageUrlBase relpath) "index.html".toList

/-- The output file path (marc.go lines 161-162): the absolute source
path with its extension replaced by `.html`. -/
def outPathOf (abspath : Str) : Str :=
  trimSuffix abspath (extOf abspath) ++ ".html".toList

/-- The permission bits passed to `os.WriteFile` (marc.go line 185). -/
def writeFileMode : Nat := 0o600

theorem isSuffixOf_append (x s : Str) : s.isSuffixOf (x ++ s) = true := by
  rw [List.isSuffixOf_iff_suffix]
  exact List.suffix_append x s

theorem trimSuffix_append (x s : Str) : trimSuffix (x ++ s) s = x := by
  rw [trimSuffix, if_pos (isSuffixOf_append x s)]
  rw [List.length_append, Nat.add_sub_cancel]
  exact List.take_left x s

theorem trimSuffix_of_suffix {l s : Str} (h : s.isSuffixOf l = true) :
    trimSuffix l s ++ s = l := by
  obtain ⟨x, hx⟩ := List.isSuffixOf_iff_suffix.mp h
  rw [← hx, trimSuffix_append]

theorem extOf_append_md (x : Str) : extOf (x ++ ".md".toList) = ".md".toList := by
  rw [extOf, List.reverse_append]
  rfl

/-- Replacing the extension of a path ending in `.md` by `.html`. -/
theorem pageUrlBase_md (x : Str) :
    pageUrlBase (x ++ ".md".toList) = x ++ ".html".toList := by
  rw [pageUrlBase, extOf_append_md, trimSuffix_append]

/-- Claim C4: the URL is the relative path with its extension replaced
by `.html` and then one trailing `index.html` stripped — stripping
happens only at the very end, never mid-path — so `index.md` at any
directory depth maps to its directory's URL, the empty string at the
site root, while a mid-path `index.html` segment is untouched. -/
theorem url_derivation_spec (rel d : Str) :
    (mapUrl rel = pageUrlBase rel ∧
       ("index.html".toList).isSuffixOf (pageUrlBase rel) = false ∨
     pageUrlBase rel = mapUrl rel ++ "index.html".toList) ∧
    mapUrl (d ++ "index.md".toList) = d ∧
    mapUrl "index.md".toList = [] ∧
    mapUrl "index.html.d/foo.md".toList = "index.html.d/foo.html".toList := by
  refine ⟨?_, ?_, ?_, by decide⟩
  · cases hs : ("index.html".toList).isSuffixOf (pageUrlBase rel) with
    | false =>
      exact Or.inl ⟨by rw [mapUrl, trimSuffix, hs]; rfl, rfl⟩
    | true =>
      exact Or.inr (trimSuffix_of_suffix hs).symm
  · have : d ++ "index.md".toList = (d ++ "index".toList) ++ ".md".toList := by
      simp [List.append_assoc]
    rw [mapUrl, this, pageUrlBase_md]
    have h2 : (d ++ "index".toList) ++ ".html".toList =
        d ++ "index.html".toList := by
      simp [List.append_assoc]
    rw [h2, trimSuffix_append]
  · have := trimSuffix_append ([] : Str) "index.html".toList
    have h0 : mapUrl "index.md".toList =
        trimSuffix ("index.html".toList) "index.html".toList := by
      rw [mapUrl]
      congr 1
    rw [h0]
    simpa using this

/-- Claim C10: the trailing strip fires on any derived URL that merely
ends with the literal `index.html`; in particular `myindex.md` maps to
the URL `my`, unlike `my.md`, which keeps its full `my.html` URL. -/
theorem url_strip_any_index_suffix (s : Str) :
    (("index.html".toList).isSuffixOf (pageUrlBase s) = true →
      mapUrl s ++ "index.html".toList = pageUrlBase s) ∧
    mapUrl "myindex.md".toList = "my".toList ∧
    mapUrl "my.md".toList = "my.html".toList := by
  refine ⟨?_, by decide, by decide⟩
  intro h
  exact trimSuffix_of_suffix h

/-- Witness for C10 at `s = "myindex.md"`: its `.html` form ends in
`index.html`, and the strip removes exactly that suffix. -/
theorem url_strip_any_index_suffix_witness :
    (mapUrl "myindex.md".toList ++ "index.html".toList =
      pageUrlBase "myindex.md".toList) ∧
    mapUrl "myindex.md".toList = "my".toList ∧
    mapUrl "my.md".toList = "my.html".toList :=
  ⟨(url_strip_any_index_suffix "myindex.md".toList).1 (by decide),
   (url_strip_any_index_suffix "myindex.md".toList).2.1,
   (url_strip_any_index_suffix "myindex.md".toList).2.2⟩

/-- Claim C8: each rendered document is written to its source path with
the extension replaced by `.html` — a sibling file, keeping the literal
`index.html` name on disk — the write replaces any existing content at
that path and touches no other path, and the permission passed to the
write is octal 600: owner read-write, no group or world bits. -/
theorem output_path_spec (x d p c q : Str) (fs : List (Str × Str)) :
    outPathOf (x ++ ".md".toList) = x ++ ".html".toList ∧
    outPathOf (d ++ "/index.md".toList) = d ++ "/index.html".toList ∧
    mapGet (mapSet fs p c) p = some c ∧
    (q ≠ p → mapGet (mapSet fs p c) q = mapGet fs q) ∧
    writeFileMode = 0o600 ∧ writeFileMode / 64 = 6 ∧ writeFileMode % 64 = 0 := by
  refine ⟨?_, ?_, mapGet_mapSet_self fs p c, mapGet_mapSet_ne fs p c q,
    rfl, by decide, by decide⟩
  · rw [outPathOf, extOf_append_md, trimSuffix_append]
  · have h1 : d ++ "/index.md".toList = (d ++ "/index".toList) ++ ".md".toList := by
      simp [List.append_assoc]
    rw [outPathOf, h1, extOf_append_md, trimSuffix_append]
    simp [List.append_assoc]

/-- Witness for C8: a concrete overwrite of an existing `index.html`
sibling, and the untouched unrelated path. -/
theorem output_path_spec_witness :
    outPathOf "site/a.md".toList = "site/a.html".toList ∧
    outPathOf "site/blog/index.md".toList = "site/blog/index.html".toList ∧
    mapGet (mapSet [("site/blog/index.html".toList, "old".toList)]
        "site/blog/index.html".toList "new".toList)
      "site/blog/index.html".toList = some "new".toList ∧
    mapGet (mapSet [("site/blog/index.html".toList, "old".toList)]
        "site/blog/index.html".toList "new".toList)
      "other".toList = mapGet [("site/blog/index.html".toList, "old".toList)]
        "other".toList ∧
    writeFileMode / 64 = 6 ∧ writeFileMode % 64 = 0 := by
  have h := output_path_spec "site/a".toList "site/blog".toList
    "site/blog/index.html".toList "new".toList "other".toList
    [("site/blog/index.html".toList, "old".toList)]
  exact ⟨h.1, h.2.1, h.2.2.1, h.2.2.2.1 (by decide), h.2.2.2.2.2.1,
    h.2.2.2.2.2.2⟩

/-- The closed date-format registry (marc.go lines 34-38);
`time.RFC822` is the pattern `02 Jan 06 15:04 MST`. -/
def dateFormats : List (Str × Str) :=
  [("rfc822".toList, "02 Jan 06 15:04 MST".toList),
   ("yyyy-mm-dd".toList, "2006-01-02".toList),
   ("shortdate".toList, "02 Jan 2006".toList)]

def exceptIsOk {ε α : Type} : Except ε α → Bool
  | .ok _ => true
  | .error _ => false

/-- The `dateformat` template function (marc.go lines 41-53). The time
package is external: `parse` stands for `time.Parse` (`none` on parse
error, in which case Go's discarded-error idiom leaves the zero time
`zero`), `format` for `Time.Format`. -/
def dateformat {Time : Type} (zero : Time)
    (parse : Str → Str → Option Time) (format : Time → Str → Str)
    (src dst input : Str) : Except Str Str :=
  match mapGet dateFormats src with
  | none => .error ("unknown date format: ".toList ++ src)
  | some srcfmt =>
    match mapGet dateFormats dst with
    | none => .error ("unknown date format: ".toList ++ dst)
    | some dstfmt => .ok (format ((parse srcfmt input).getD zero) dstfmt)

/-- Claim C5: `dateformat` errors exactly when the source or the
destination name is missing from the closed registry, each position
failing independently with its own message; with both names present it
always succeeds, and a parse failure on the input is silently replaced
by formatting the zero time. -/
theorem dateformat_spec {Time : Type} (zero : Time)
    (parse : Str → Str → Option Time) (format : Time → Str → Str)
    (src dst input sf df : Str) :
    (exceptIsOk (dateformat zero parse format src dst input) =
      ((mapGet dateFormats src).isSome && (mapGet dateFormats dst).isSome)) ∧
    (mapGet dateFormats src = none →
      dateformat zero parse format src dst input =
        .error ("unknown date format: ".toList ++ src)) ∧
    (mapGet dateFormats src = some sf → mapGet dateFormats dst = none →
      dateformat zero parse format src dst input =
        .error ("unknown date format: ".toList ++ dst)) ∧
    (mapGet dateFormats src = some sf → mapGet dateFormats dst = some df →
      parse sf input = none →
      dateformat zero parse format src dst input = .ok (format zero df)) := by
  refine ⟨?_, ?_, ?_, ?_⟩
  · cases hs : mapGet dateFormats src with
    | none => simp [dateformat, hs, exceptIsOk]
    | some sfv =>
      cases hd : mapGet dateFormats dst with
      | none => simp [dateformat, hs, hd, exceptIsOk]
      | some dfv => simp [dateformat, hs, hd, exceptIsOk]
  · intro hs; simp [dateformat, hs]
  · intro hs hd; simp [dateformat, hs, hd]
  · intro hs hd hp; simp [dateformat, hs, hd, hp]

/-- Witness for C5 over `Time := Unit` with an always-failing parser:
an unknown source name fails, an unknown destination name fails with a
known source, and with both names known the parse failure is swallowed
and the zero time is formatted. -/
theorem dateformat_spec_witness :
    dateformat () (fun _ _ => (none : Option Unit)) (fun _ _ => "Z".toList)
        "nope".toList "shortdate".toList "garbage".toList =
      .error ("unknown date format: nope".toList) ∧
    dateformat () (fun _ _ => (none : Option Unit)) (fun _ _ => "Z".toList)
        "rfc822".toList "nope".toList "garbage".toList =
      .error ("unknown date format: nope".toList) ∧
    dateformat () (fun _ _ => (none : Option Unit)) (fun _ _ => "Z".toList)
        "rfc822".toList "shortdate".toList "garbage".toList =
      .ok ("Z".toList) := by
  refine ⟨?_, ?_, ?_⟩
  · exact ((dateformat_spec () _ _ "nope".toList "shortdate".toList
      "garbage".toList [] []).2.1 (by decide)).trans rfl
  · exact ((dateformat_spec () _ _ "rfc822".toList "nope".toList
      "garbage".toList "02 Jan 06 15:04 MST".toList []).2.2.1
      (by decide) (by decide)).trans rfl
  · exact (dateformat_spec () _ _ "rfc822".toList "shortdate".toList
      "garbage".toList "02 Jan 06 15:04 MST".toList
      "02 Jan 2006".toList).2.2.2 (by decide) (by decide) rfl

/-- The placeholder token in the built-in default template
(marc.go line 125). -/
def placeholderTok : Str := "STYLE_PLACEHOLDER".toList

/-- Go `strings.Replace(s, old, new, 1)`: replace the first occurrence. -/
def replaceFirst (s old new : Str) : Str :=
  match indexOf? s old with
  | none => s
  | some i => s.take i ++ new ++ s.drop (i + old.length)

/-- Function `readTmpl` (marc.go lines 117-127). File reading and template
compilation are external: `userFile` is the result of reading
`siteDir/base.tmpl` (`none` when unreadable), `parse` stands for
`Template.Parse` (`none` on a parse error). `template.Must` on the
default is the final `parse` application; `none` there models its
panic, which claim C6 rules out whenever the built-in default
compiles. -/
def readTmpl {Tmpl : Type} (userFile : Option Str)
    (parse : Str → Option Tmpl) (defaultHTML defaultCSS : Str) : Option Tmpl :=
  match userFile with
  | some txt =>
    match parse txt with
    | some t => some t
    | none => parse (replaceFirst defaultHTML placeholderTok defaultCSS)
  | none => parse (replaceFirst defaultHTML placeholderTok defaultCSS)

/-- Claim C6: layout resolution returns the user template when the file
is readable and parses; when the file is absent or fails to parse it
returns the built-in default with the stylesheet substituted for the
placeholder, and — provided the built-in default compiles — a user
parse failure never aborts the run. -/
theorem readTmpl_spec {Tmpl : Type} (userFile : Option Str)
    (parse : Str → Option Tmpl) (dHTML dCSS txt : Str) (t : Tmpl) :
    (userFile = some txt → parse txt = some t →
      readTmpl userFile parse dHTML dCSS = some t) ∧
    (userFile = none →
      readTmpl userFile parse dHTML dCSS =
        parse (replaceFirst dHTML placeholderTok dCSS)) ∧
    (userFile = some txt → parse txt = none →
      readTmpl userFile parse dHTML dCSS =
        parse (replaceFirst dHTML placeholderTok dCSS)) ∧
    ((parse (replaceFirst dHTML placeholderTok dCSS)).isSome = true →
      (readTmpl userFile parse dHTML dCSS).isSome = true) := by
  refine ⟨?_, ?_, ?_, ?_⟩
  · intro hu hp; simp [readTmpl, hu, hp]
  · intro hu; simp [readTmpl, hu]
  · intro hu hp; simp [readTmpl, hu, hp]
  · intro hd
    cases hu : userFile with
    | none => simpa [readTmpl] using hd
    | some txt' =>
      cases hp : parse txt' with
      | none => simpa [readTmpl, hp] using hd
      | some t' => simp [readTmpl, hp]

/-- Witness for C6 over `Tmpl := Nat`, with a parser accepting exactly
the string `ok` and the substituted default text: a good user template
wins, a broken user template and a missing file both fall back to the
substituted default, and resolution still yields a template. -/
theorem readTmpl_spec_witness :
    readTmpl (some "ok".toList)
        (fun s => if s == "ok".toList then some 1 else
          if s == "css!".toList then some 2 else (none : Option Nat))
        "STYLE_PLACEHOLDER!".toList "css".toList = some 1 ∧
    readTmpl (none : Option Str)
        (fun s => if s == "ok".toList then some 1 else
          if s == "css!".toList then some 2 else (none : Option Nat))
        "STYLE_PLACEHOLDER!".toList "css".toList = some 2 ∧
    readTmpl (some "broken".toList)
        (fun s => if s == "ok".toList then some 1 else
          if s == "css!".toList then some 2 else (none : Option Nat))
        "STYLE_PLACEHOLDER!".toList "css".toList = some 2 ∧
    (readTmpl (some "broken".toList)
        (fun s => if s == "ok".toList then some 1 else
          if s == "css!".toList then some 2 else (none : Option Nat))
        "STYLE_PLACEHOLDER!".toList "css".toList).isSome = true := by
  refine ⟨?_, ?_, ?_, ?_⟩
  · exact (readTmpl_spec (some "ok".toList) _ "STYLE_PLACEHOLDER!".toList
      "css".toList "ok".toList 1).1 rfl (by decide)
  · exact ((readTmpl_spec (none : Option Str) _ "STYLE_PLACEHOLDER!".toList
      "css".toList "ok".toList 1).2.1 rfl).trans (by decide)
  · exact ((readTmpl_spec (some "broken".toList) _ "STYLE_PLACEHOLDER!".toList
      "css".toList "broken".toList 1).2.2.1 rfl (by decide)).trans (by decide)
  · exact (readTmpl_spec (some "broken".toList) _ "STYLE_PLACEHOLDER!".toList
      "css".toList "broken".toList 1).2.2.2 (by decide)

/-- Go `strings.Contains` on the model: the needle occurs inside the hay. -/
def isSubstr (needle hay : Str) : Bool := (indexOf? hay needle).isSome

/-- The log messages of the render loop (marc.go lines 170, 182, 187). -/
def msgConvert : Str := "failed to convert markdown:".toList

def msgRender : Str := "failed to render page:".toList

def msgWrite : Str := "failed to write file:".toList

/-- The progress line `log.Println("*", outPath)` (marc.go line 163). -/
def logLine (p : Page) : Str := ['*', ' '] ++ outPathOf p.AbsPath

/-- The observable state of a run: emitted log lines, output files
written so far (path and bytes, in order), and the fatal message of
`log.Fatal` once the process has exited. -/
structure RunState where
  logs : List Str
  written : List (Str × Str)
  fatal : Option Str
deriving DecidableEq

def initRun : RunState := ⟨[], [], none⟩

/-- One iteration of the render loop (marc.go lines 160-189). The
converter, the template engine and the file writer are external:
`convert` stands for `md.Convert`, `render` for `baseTmpl.Execute` on
the data model holding the page (its HTML fragment filled in), `write`
for `os.WriteFile`. `log.Fatal` exits the process, modelled by the
sticky `fatal` field: once set, later iterations change nothing. -/
def renderStep (convert : Str → Except Str Str)
    (render : Page → Except Str Str) (write : Str → Str → Except Str Unit)
    (st : RunState) (p : Page) : RunState :=
  if st.fatal.isSome then st
  else
    let outPath := outPathOf p.AbsPath
    let st1 : RunState := { st with logs := st.logs ++ [logLine p] }
    match convert p.Text with
    | .error e => { st1 with fatal := some (msgConvert ++ e) }
    | .ok body =>
      match render { p with HTML := body } with
      | .error e => { st1 with fatal := some (msgRender ++ e) }
      | .ok out =>
        match write outPath out with
        | .error e => { st1 with fatal := some (msgWrite ++ e) }
        | .ok _ => { st1 with written := st1.written ++ [(outPath, out)] }

/-- The render pass over the sorted registry (marc.go lines 160-189). -/
def runPages (convert : Str → Except Str Str)
    (render : Page → Except Str Str) (write : Str → Str → Except Str Unit)
    (pages : List Page) : RunState :=
  pages.foldl (renderStep convert render write) initRun

/-- The outcome of one document, abstracted from the loop body: the
output path and rendered bytes on success, the fatal message on the
first failing step. -/
def pageStep (convert : Str → Except Str Str)
    (render : Page → Except Str Str) (write : Str → Str → Except Str Unit)
    (p : Page) : Except Str (Str × Str) :=
  let outPath := outPathOf p.AbsPath
  match convert p.Text with
  | .error e => .error (msgConvert ++ e)
  | .ok body =>
    match render { p with HTML := body } with
    | .error e => .error (msgRender ++ e)
    | .ok out =>
      match write outPath out with
      | .error e => .error (msgWrite ++ e)
      | .ok _ => .ok (outPath, out)

theorem renderStep_fatal {convert render write st p}
    (h : st.fatal.isSome = true) :
    renderStep convert render write st p = st := by
  simp [renderStep, h]

theorem foldl_renderStep_fatal {convert render write st}
    (l : List Page) (h : st.fatal.isSome = true) :
    l.foldl (renderStep convert render write) st = st := by
  induction l with
  | nil => rfl
  | cons p t ih => rw [List.foldl_cons, renderStep_fatal h, ih]

theorem renderStep_eq_pageStep {convert render write st} (p : Page)
    (h : st.fatal = none) :
    renderStep convert render write st p =
      match pageStep convert render write p with
      | .ok r => ⟨st.logs ++ [logLine p], st.written ++ [r], st.fatal⟩
      | .error e => ⟨st.logs ++ [logLine p], st.written, some e⟩ := by
  cases hc : convert p.Text with
  | error e => simp [renderStep, pageStep, h, hc]
  | ok body =>
    cases hr : render { p with HTML := body } with
    | error e => simp [renderStep, pageStep, h, hc, hr]
    | ok out =>
      cases hw : write (outPathOf p.AbsPath) out with
      | error e => simp [renderStep, pageStep, h, hc, hr, hw]
      | ok u => simp [renderStep, pageStep, h, hc, hr, hw]

theorem runPages_go_spec (convert : Str → Except Str Str)
    (render : Page → Except Str Str) (write : Str → Str → Except Str Unit)
    (pre post : List Page) (p : Page) (e : Str) (st : RunState)
    (hst : st.fatal = none)
    (hpre : ∀ q ∈ pre, (exceptIsOk (pageStep convert render write q)) = true)
    (hp : pageStep convert render write p = .error e) :
    (pre ++ p :: post).foldl (renderStep convert render write) st =
      { logs := st.logs ++ (pre ++ [p]).map logLine,
        written := st.written ++
          pre.filterMap (fun q => (pageStep convert render write q).toOption),
        fatal := some e } := by
  induction pre generalizing st with
  | nil =>
    rw [List.nil_append, List.foldl_cons, renderStep_eq_pageStep p hst, hp]
    rw [foldl_renderStep_fatal post (by simp)]
    simp [hst]
  | cons q t ih =>
    have hq := hpre q (List.mem_cons_self q t)
    rw [List.cons_append, List.foldl_cons, renderStep_eq_pageStep q hst]
    cases hqs : pageStep convert render write q with
    | error e' => rw [hqs] at hq; simp [exceptIsOk] at hq
    | ok r =>
      rw [ih ⟨st.logs ++ [logLine q], st.written ++ [(r.1, r.2)], st.fatal⟩
        hst (fun q' hq' => hpre q' (List.mem_cons_of_mem q hq'))]
      simp [List.filterMap_cons, hqs, Except.toOption]

/-- Amendment of claim C7: a failure of conversion, rendering or
writing halts the run at once with the step's fatal message — the log
ends at the failing document's progress line, which names its derived
output path (not its source path), later documents are untouched, and
the files written for earlier documents remain. -/
theorem render_loop_abort_spec (convert : Str → Except Str Str)
    (render : Page → Except Str Str) (write : Str → Str → Except Str Unit)
    (pre post : List Page) (p : Page) (e : Str)
    (hpre : ∀ q ∈ pre, (exceptIsOk (pageStep convert render write q)) = true)
    (hp : pageStep convert render write p = .error e) :
    runPages convert render write (pre ++ p :: post) =
      { logs := (pre ++ [p]).map logLine,
        written :=
          pre.filterMap (fun q => (pageStep convert render write q).toOption),
        fatal := some e } ∧
    (logLine p ∈ (runPages convert render write (pre ++ p :: post)).logs) := by
  have h := runPages_go_spec convert render write pre post p e initRun rfl
    hpre hp
  refine ⟨by simpa [runPages, initRun] using h, ?_⟩
  rw [runPages, h]
  simp [initRun]

def pageOkSrc : Page :=
  { Meta := [], Text := "good".toList, Url := "a.html".toList, HTML := [],
    AbsPath := "/site/a.md".toList, RelPath := "a.md".toList }

def pageBadSrc : Page :=
  { Meta := [], Text := "bad".toList, Url := "b.html".toList, HTML := [],
    AbsPath := "/site/b.md".toList, RelPath := "b.md".toList }

def pageAfterSrc : Page :=
  { Meta := [], Text := "later".toList, Url := "c.html".toList, HTML := [],
    AbsPath := "/site/c.md".toList, RelPath := "c.md".toList }

/-- A converter that fails exactly on the text of `pageBadSrc`. -/
def convStub (s : Str) : Except Str Str :=
  if s == "bad".toList then .error "boom".toList else .ok s

def rendStub (p : Page) : Except Str Str := .ok p.HTML

def writeStub (_ : Str) (_ : Str) : Except Str Unit := .ok ()

/-- Witness for the amendment of C7: with one good document before and
one document after, the failing conversion stops the run — the good
document's file is on disk, the later document never starts, and the
last log line carries the failing document's output path. -/
theorem render_loop_abort_spec_witness :
    runPages convStub rendStub writeStub [pageOkSrc, pageBadSrc, pageAfterSrc] =
      { logs := [pageOkSrc, pageBadSrc].map logLine,
        written := [pageOkSrc].filterMap
          (fun q => (pageStep convStub rendStub writeStub q).toOption),
        fatal := some (msgConvert ++ "boom".toList) } ∧
    logLine pageBadSrc ∈
      (runPages convStub rendStub writeStub
        [pageOkSrc, pageBadSrc, pageAfterSrc]).logs := by
  have h := render_loop_abort_spec convStub rendStub writeStub
    [pageOkSrc] [pageAfterSrc] pageBadSrc (msgConvert ++ "boom".toList)
    (by decide) (by rfl)
  exact ⟨h.1, h.2⟩

/-- Counterexample to claim C7 as stated: at this concrete input the
run does abort with the underlying cause, but neither any log line nor
the fatal message contains the failing document's source path
`/site/b.md` — only its derived output path `/site/b.html` is
reported. -/
theorem render_loop_no_source_path_report :
    (runPages convStub rendStub writeStub [pageBadSrc]).fatal.isSome = true ∧
    (runPages convStub rendStub writeStub [pageBadSrc]).logs.all
      (fun ln => !(isSubstr "/site/b.md".toList ln)) = true ∧
    isSubstr "/site/b.md".toList
      (((runPages convStub rendStub writeStub [pageBadSrc]).fatal).getD [])
      = false ∧
    (runPages convStub rendStub writeStub [pageBadSrc]).logs =
      [['*', ' '] ++ "/site/b.html".toList] := by
  refine ⟨by decide, by decide, by decide, by decide⟩

/-- One visit of the `filepath.WalkDir` callback (marc.go lines
140-147): the path visited and the error, if any, the walk reports for
it. -/
structure WalkEntry where
  path : Str
  err : Option Str
deriving DecidableEq

/-- The state of discovery: pages collected so far and the fatal
message once `log.Fatal` has fired inside `readPage`. -/
structure DiscResult where
  pages : List Page
  fatal : Option Str
deriving DecidableEq

def mdExt : Str := ".md".toList

/-- Function `readPage` (marc.go lines 87-109) with the filesystem abstracted:
`readFile` stands for `os.ReadFile`, whose failure is fatal, and `rel`
for `filepath.Rel` against the site root (its own failure branch is
not exercised by any claim). -/
def readPageM (readFile : Str → Except Str Str) (rel : Str → Str)
    (abspath : Str) : Except Str Page :=
  match readFile abspath with
  | .error e => .error ("failed to read page:".toList ++ e)
  | .ok text =>
    let mt := readMeta text
    let relpath := rel abspath
    .ok { Meta := mt.1, Text := mt.2, Url := mapUrl relpath, HTML := [],
          AbsPath := abspath, RelPath := relpath }

/-- One iteration of the walk callback (marc.go lines 140-147). The
callback's `err` argument is never consulted — exactly as in the
source, whose closure ignores it and whose `WalkDir` return value is
discarded — and a non-`.md` path is skipped whether or not the walk
reported an error for it. The `fatal` field is sticky: `log.Fatal`
ends the process. -/
def discStep (readFile : Str → Except Str Str) (rel : Str → Str)
    (st : DiscResult) (en : WalkEntry) : DiscResult :=
  if st.fatal.isSome then st
  else if (extOf en.path == mdExt) = false then st
  else
    match readPageM readFile rel en.path with
    | .error e => { st with fatal := some e }
    | .ok pg => { st with pages := st.pages ++ [pg] }

/-- Discovery: fold the walk callback over the visited entries. -/
def discover (readFile : Str → Except Str Str) (rel : Str → Str)
    (entries : List WalkEntry) : DiscResult :=
  entries.foldl (discStep readFile rel) ⟨[], none⟩

/-- Counterexample to claim C9 as stated: a walk that reports an error
for a directory entry is not fatal — discovery ends with no fatal
message and an empty page list, the run carrying on as if nothing
happened. -/
theorem discover_ignores_walk_error :
    discover (fun _ => .ok []) (fun p => p)
      [⟨"site/unreadable-dir".toList, some "permission denied".toList⟩] =
      ⟨[], none⟩ := by
  rfl

def exceptIsErr {ε α : Type} : Except ε α → Bool
  | .ok _ => false
  | .error _ => true

theorem discStep_err_free (readFile : Str → Except Str Str)
    (rel : Str → Str) (st : DiscResult) (en : WalkEntry) :
    discStep readFile rel st en = discStep readFile rel st ⟨en.path, none⟩ := by
  rfl

theorem discover_go_fatal (readFile : Str → Except Str Str)
    (rel : Str → Str) (entries : List WalkEntry) (st : DiscResult) :
    (entries.foldl (discStep readFile rel) st).fatal.isSome =
      (st.fatal.isSome ||
        entries.any (fun en =>
          (extOf en.path == mdExt) && exceptIsErr (readFile en.path))) := by
  induction entries generalizing st with
  | nil => simp
  | cons en t ih =>
    rw [List.foldl_cons, ih]
    cases hf : st.fatal.isSome with
    | true => simp [discStep, hf]
    | false =>
      cases hx : (extOf en.path == mdExt) with
      | false => simp [discStep, hf, hx]
      | true =>
        cases hr : readFile en.path with
        | error e =>
          simp [discStep, hf, hx, readPageM, hr, exceptIsErr]
        | ok text =>
          simp [discStep, hf, hx, readPageM, hr, exceptIsErr]

/-- Amendment of claim C9: discovery is fatal exactly when reading
some visited file with the `.md` extension fails; errors reported by
the walk itself are ignored outright — the outcome is unchanged if
every walk error is erased. -/
theorem discovery_fatal_spec (readFile : Str → Except Str Str)
    (rel : Str → Str) (entries : List WalkEntry) :
    ((discover readFile rel entries).fatal.isSome =
      entries.any (fun en =>
        (extOf en.path == mdExt) && exceptIsErr (readFile en.path))) ∧
    discover readFile rel entries =
      discover readFile rel (entries.map (fun en => ⟨en.path, none⟩)) := by
  constructor
  · simpa using discover_go_fatal readFile rel entries ⟨[], none⟩
  · rw [discover, discover]
    have hgo : ∀ (l : List WalkEntry) (st : DiscResult),
        l.foldl (discStep readFile rel) st =
          (l.map (fun en => WalkEntry.mk en.path none)).foldl
            (discStep readFile rel) st := by
      intro l
      induction l with
      | nil => intro st; rfl
      | cons en t ih =>
        intro st
        rw [List.map_cons, List.foldl_cons, List.foldl_cons,
          ← discStep_err_free, ih]
    exact hgo entries ⟨[], none⟩

end Marc
